import Mathlib

/-!
# homescript-ls: document synchronisation and position mapping

A shallow embedding of `src/document.go` and of the diagnostic / hover
mapping of `src/main.go`.

Conventions of the embedding
* A Go `string` is a finite sequence of bytes: `GoString := List (Fin 256)`.
* A Go run-time panic (slice bounds out of range, index out of range) is the
  value `none` of an `Option`.
* Go's `int` is taken to be 64 bits wide (two's complement, wrapping);
  `uint32` arithmetic is arithmetic modulo `2^32`.
* Methods with a pointer receiver that write to the receiver return the
  updated receiver next to their result.
-/

namespace HomescriptLS

/-! ## Go strings, slices and integers -/

abbrev Byte := Fin 256

abbrev GoString := List Byte

/-- Bytes of an ASCII literal (every literal used below is ASCII, where the
byte sequence of the Go string is the sequence of its character codes). -/
def str (s : String) : GoString := s.toList.map (fun c => Fin.ofNat c.toNat)

/-- Go's 64-bit `int`: the representative of `x` in `[-2^63, 2^63)`. -/
def wrapInt (x : Int) : Int := (x + 2 ^ 63) % 2 ^ 64 - 2 ^ 63

/-- Conversion `uint32(x)` of an unsigned value. -/
def toUint32 (x : Nat) : Nat := x % 2 ^ 32

/-- Subtraction on `uint32`. -/
def subUint32 (a b : Nat) : Nat := (a % 2 ^ 32 + 2 ^ 32 - b % 2 ^ 32) % 2 ^ 32

/-- Addition on `uint32`. -/
def addUint32 (a b : Nat) : Nat := (a + b) % 2 ^ 32

/-- Go slice expression `s[lo:hi]` on a string: panics unless
`0 <= lo <= hi <= len(s)`. -/
def slice (s : GoString) (lo hi : Int) : Option GoString :=
  if 0 ≤ lo ∧ lo ≤ hi ∧ hi ≤ (s.length : Int) then
    some ((s.take hi.toNat).drop lo.toNat)
  else none

/-- Go slice expression `s[:hi]`. -/
def sliceTo (s : GoString) (hi : Int) : Option GoString := slice s 0 hi

/-- Go slice expression `s[lo:]`. -/
def sliceFrom (s : GoString) (lo : Int) : Option GoString := slice s lo s.length

/-- Go index expression `xs[i]` on a slice: panics unless `0 <= i < len(xs)`. -/
def indexAt {α : Type} (xs : List α) (i : Int) : Option α :=
  if 0 ≤ i ∧ i < (xs.length : Int) then xs[i.toNat]? else none

/-- The byte `'\n'`. -/
def newline : Byte := 10

/-- Go's `strings.Split(s, "\n")`: the pieces between the newline bytes, in
order; the empty string gives one empty piece, and nothing is stripped. -/
def splitNewline : GoString → List GoString
  | [] => [[]]
  | c :: cs =>
    if c = newline then [] :: splitNewline cs
    else
      match splitNewline cs with
      | [] => [[c]]
      | l :: ls => (c :: l) :: ls

/-! ## Protocol types used by the document -/

/-- The `protocol.Position` of glsp: two `uint32` fields. -/
structure Position where
  Line : Nat
  Character : Nat
deriving DecidableEq, Repr

/-- The `protocol.Range` of glsp. -/
structure Range where
  Start : Position
  End : Position
deriving DecidableEq, Repr

/-- An element of the `[]interface{}` handed to `ApplyChanges`: the two
cases of the type switch (a ranged event carries its range), and any value
of another dynamic type. -/
inductive Change where
  | ranged (range : Range) (text : GoString)
  | whole (text : GoString)
  | other
deriving DecidableEq, Repr

/-- The struct `document`; the nil slice of `lines` is `none`. -/
structure document where
  URI : GoString
  Path : GoString
  NeedsRefreshDiagnostics : Bool
  Content : GoString
  lines : Option (List GoString)
deriving DecidableEq, Repr

/-! ## `src/document.go` -/

/-- The loop of `ApplyChanges`. `indexesIn` is glsp's `Range.IndexesIn`, a
library function outside the repository, taken as a parameter. -/
def applyLoop (indexesIn : Range → GoString → Int × Int) :
    document → List Change → Option document
  | d, [] => some d
  | d, Change.ranged r text :: rest =>
    match sliceTo d.Content (indexesIn r d.Content).1,
          sliceFrom d.Content (indexesIn r d.Content).2 with
    | some a, some b => applyLoop indexesIn { d with Content := a ++ text ++ b } rest
    | _, _ => none
  | d, Change.whole text :: rest => applyLoop indexesIn { d with Content := text } rest
  | d, Change.other :: rest => applyLoop indexesIn d rest

/-- The method `document.ApplyChanges`: the loop, then `d.lines = nil`. -/
def ApplyChanges (indexesIn : Range → GoString → Int × Int)
    (d : document) (changes : List Change) : Option document :=
  (applyLoop indexesIn d changes).map (fun d1 => { d1 with lines := none })

/-- The method `document.GetLines`: the returned slice and the receiver
afterwards. -/
def GetLines (d : document) : List GoString × document :=
  match d.lines with
  | none => (splitNewline d.Content, { d with lines := some (splitNewline d.Content) })
  | some ls => (ls, d)

/-- The method `document.GetLine`: the returned pair and the receiver
afterwards, or `none` when `lines[index]` panics. -/
def GetLine (d : document) (index : Int) : Option ((GoString × Bool) × document) :=
  let lines := (GetLines d).1
  let d1 := (GetLines d).2
  if index < 0 ∨ index > (lines.length : Int) then some (([], false), d1)
  else (indexAt lines index).map (fun l => ((l, true), d1))

/-- The method `document.LookBehind`. -/
def LookBehind (d : document) (pos : Position) (length : Int) : Option (GoString × document) :=
  match GetLine d (pos.Line : Int) with
  | none => none
  | some ((line, ok), d1) =>
    if ok = false then some ([], d1)
    else
      let charIdx : Int := (pos.Character : Int)
      if length > charIdx then (slice line 0 charIdx).map (fun s => (s, d1))
      else (slice line (wrapInt (charIdx - length)) charIdx).map (fun s => (s, d1))

/-- The method `document.LookForward`. -/
def LookForward (d : document) (pos : Position) (length : Int) : Option (GoString × document) :=
  match GetLine d (pos.Line : Int) with
  | none => none
  | some ((line, ok), d1) =>
    if ok = false then some ([], d1)
    else
      let lineLength : Int := (line.length : Int)
      let charIdx : Int := (pos.Character : Int)
      if lineLength ≤ wrapInt (charIdx + length) then
        (slice line charIdx lineLength).map (fun s => (s, d1))
      else (slice line charIdx (wrapInt (charIdx + length))).map (fun s => (s, d1))

/-! ## The change semantics as the specification words it -/

/-- One change as the specification describes it: a ranged change replaces
`c[s:e]` by its text, a whole-document change replaces everything; a value
that is neither kind of event changes nothing. -/
def specStep (indexesIn : Range → GoString → Int × Int) (c : GoString) : Change → GoString
  | Change.ranged r text =>
    c.take (indexesIn r c).1.toNat ++ text ++ c.drop (indexesIn r c).2.toNat
  | Change.whole text => text
  | Change.other => c

/-- A ranged change resolves against `c` to offsets `0 <= s <= e <= len(c)`;
the other changes resolve nothing. -/
def changeInBounds (indexesIn : Range → GoString → Int × Int) (c : GoString) : Change → Bool
  | Change.ranged r _ =>
    decide (0 ≤ (indexesIn r c).1 ∧ (indexesIn r c).1 ≤ (indexesIn r c).2
      ∧ (indexesIn r c).2 ≤ (c.length : Int))
  | Change.whole _ => true
  | Change.other => true

/-- Every ranged change of the list resolves, against the content it is
applied to, to offsets `0 <= s <= e <= len(c)`. -/
def resolvesInBounds (indexesIn : Range → GoString → Int × Int) :
    GoString → List Change → Bool
  | _, [] => true
  | c, ch :: rest =>
    changeInBounds indexesIn c ch && resolvesInBounds indexesIn (specStep indexesIn c ch) rest

/-- The line cache, when present, is the exact split of the content. -/
def cacheExact (d : document) : Bool :=
  match d.lines with
  | none => true
  | some ls => decide (ls = splitNewline d.Content)

/-- The two fields of a position are `uint32` values. -/
def Position.wf (p : Position) : Prop := p.Line < 2 ^ 32 ∧ p.Character < 2 ^ 32

instance (p : Position) : Decidable p.wf := by unfold Position.wf; infer_instance

/-- A range resolver for the examples: lines are ignored and the two
character fields are the offsets. -/
def sampleIndexesIn (r : Range) (_ : GoString) : Int × Int :=
  ((r.Start.Character : Int), (r.End.Character : Int))

/-- A document holding `content`, as `DidOpen` builds it. -/
def newDocument (uri path content : GoString) : document :=
  { URI := uri, Path := path, NeedsRefreshDiagnostics := false, Content := content, lines := none }

/-! ## Go's `net/url`, as far as `uriToPath` reads it -/

/-- Errors of `url.Parse` and of `uriToPath` / `normalizePath`. -/
inductive GoError where
  | invalidControlCharacter
  | missingProtocolScheme
  | firstPathSegmentColon
  | invalidAuthority
  | escapeError
  | notFileURI
  | windowsNotSupported
  | wrapped (uri : GoString) (cause : GoError)
deriving DecidableEq, Repr

instance (α : Type) [DecidableEq α] : DecidableEq (Except GoError α)
  | Except.ok a, Except.ok b =>
    if h : a = b then isTrue (by rw [h]) else isFalse (fun e => h (Except.ok.inj e))
  | Except.error a, Except.error b =>
    if h : a = b then isTrue (by rw [h]) else isFalse (fun e => h (Except.error.inj e))
  | Except.ok _, Except.error _ => isFalse (fun e => Except.noConfusion e)
  | Except.error _, Except.ok _ => isFalse (fun e => Except.noConfusion e)

/-- The fields of `url.URL` that the parser fills before `uriToPath` reads
`Scheme` and `Path`. -/
structure URL where
  Scheme : GoString
  Opaque : GoString
  Path : GoString
deriving DecidableEq, Repr

/-- Go's `strings.Cut(s, sep)` for a one-byte separator. -/
def cutByte (sep : Byte) : GoString → GoString × GoString × Bool
  | [] => ([], [], false)
  | c :: rest =>
    if c = sep then ([], rest, true)
    else (c :: (cutByte sep rest).1, (cutByte sep rest).2.1, (cutByte sep rest).2.2)

/-- Go's `strings.ReplaceAll(uri, "%5C", "/")`: the occurrences of the three
bytes `%5C` are replaced from left to right; `skip` counts the bytes of a
replaced occurrence still to be passed over. -/
def replaceAll5CAux : Nat → GoString → GoString
  | _, [] => []
  | skip + 1, _ :: tl => replaceAll5CAux skip tl
  | 0, a :: tl =>
    if a = 37 ∧ tl.take 2 = [53, 67] then (47 : Byte) :: replaceAll5CAux 2 tl
    else a :: replaceAll5CAux 0 tl

/-- Go's `strings.ReplaceAll(uri, "%5C", "/")`. -/
def replaceAll5C (uri : GoString) : GoString := replaceAll5CAux 0 uri

/-- The test `stringContainsCTLByte` of `net/url`: a byte below 0x20 or 0x7f. -/
def stringContainsCTLByte (s : GoString) : Bool :=
  s.any (fun b => decide (b.val < 32 ∨ b.val = 127))

/-- An ASCII letter. -/
def isLetter (c : Byte) : Bool :=
  decide ((97 ≤ c.val ∧ c.val ≤ 122) ∨ (65 ≤ c.val ∧ c.val ≤ 90))

/-- The second case of the switch of `getScheme`: a digit, `+`, `-` or `.`. -/
def isSchemeOther (c : Byte) : Bool :=
  decide ((48 ≤ c.val ∧ c.val ≤ 57) ∨ c.val = 43 ∨ c.val = 45 ∨ c.val = 46)

/-- The loop of `getScheme` of `net/url`, at index `i` with `rest = rawURL[i:]`. -/
def getSchemeAux (rawURL : GoString) : Nat → GoString → Except GoError (GoString × GoString)
  | _, [] => Except.ok ([], rawURL)
  | i, c :: rest =>
    if isLetter c then getSchemeAux rawURL (i + 1) rest
    else if isSchemeOther c then
      if i = 0 then Except.ok ([], rawURL) else getSchemeAux rawURL (i + 1) rest
    else if c = 58 then
      if i = 0 then Except.error GoError.missingProtocolScheme
      else Except.ok (rawURL.take i, rawURL.drop (i + 1))
    else Except.ok ([], rawURL)

/-- The function `getScheme` of `net/url`: scheme and remainder. -/
def getScheme (rawURL : GoString) : Except GoError (GoString × GoString) :=
  getSchemeAux rawURL 0 rawURL

/-- Go's `strings.ToLower` on the bytes of a scheme. -/
def toLower (s : GoString) : GoString :=
  s.map (fun c => if 65 ≤ c.val ∧ c.val ≤ 90 then Fin.ofNat (c.val + 32) else c)

/-- A hexadecimal digit (`ishex` of `net/url`). -/
def ishex (c : Byte) : Bool :=
  decide ((48 ≤ c.val ∧ c.val ≤ 57) ∨ (97 ≤ c.val ∧ c.val ≤ 102) ∨ (65 ≤ c.val ∧ c.val ≤ 70))

/-- The value of a hexadecimal digit (`unhex` of `net/url`). -/
def unhex (c : Byte) : Nat :=
  if 48 ≤ c.val ∧ c.val ≤ 57 then c.val - 48
  else if 97 ≤ c.val ∧ c.val ≤ 102 then c.val - 97 + 10
  else if 65 ≤ c.val ∧ c.val ≤ 70 then c.val - 65 + 10
  else 0

/-- The function `unescape` of `net/url` in path or fragment mode: every
`%XX` is decoded, and a `%` not followed by two hexadecimal digits is an
escape error (`none`). -/
def unescape : GoString → Option GoString
  | [] => some []
  | a :: tl =>
    if a = 37 then
      match tl with
      | b :: c :: rest =>
        if ishex b ∧ ishex c then
          (unescape rest).map (fun r => (Fin.ofNat (unhex b * 16 + unhex c) : Byte) :: r)
        else none
      | _ => none
    else (unescape tl).map (fun r => a :: r)

/-- The remainder of a URL after the query has been split off, as `parse`
does it: a lone final `?` is dropped, else the text before the first `?`. -/
def dropQuery (rest : GoString) : GoString :=
  if rest.getLast? = some 63 ∧ rest.count 63 = 1 then rest.dropLast
  else (cutByte 63 rest).1

/-- Go's `strings.HasPrefix`. -/
def hasPrefix (s pre : GoString) : Bool := pre.isPrefixOf s

/-- The function `parse(rawURL, false)` of `net/url`. The validity of an
authority (`parseAuthority`) is the parameter `validAuthority`. -/
def parseURL (validAuthority : GoString → Bool) (rawURL : GoString) : Except GoError URL :=
  if stringContainsCTLByte rawURL then Except.error GoError.invalidControlCharacter
  else if rawURL = [42] then Except.ok { Scheme := [], Opaque := [], Path := [42] }
  else
    match getScheme rawURL with
    | Except.error e => Except.error e
    | Except.ok (scheme0, rest0) =>
      let scheme := toLower scheme0
      let rest := dropQuery rest0
      if hasPrefix rest [47] = false ∧ scheme ≠ [] then
        Except.ok { Scheme := scheme, Opaque := rest, Path := [] }
      else if hasPrefix rest [47] = false ∧ (cutByte 47 rest).1.contains 58 then
        Except.error GoError.firstPathSegmentColon
      else if (scheme ≠ [] ∨ hasPrefix rest [47, 47, 47] = false) ∧ hasPrefix rest [47, 47] then
        let authority := (cutByte 47 (rest.drop 2)).1
        let rest1 : GoString :=
          if (cutByte 47 (rest.drop 2)).2.2 then 47 :: (cutByte 47 (rest.drop 2)).2.1 else []
        if validAuthority authority = false then Except.error GoError.invalidAuthority
        else
          match unescape rest1 with
          | none => Except.error GoError.escapeError
          | some path => Except.ok { Scheme := scheme, Opaque := [], Path := path }
      else
        match unescape rest with
        | none => Except.error GoError.escapeError
        | some path => Except.ok { Scheme := scheme, Opaque := [], Path := path }

/-- The function `url.Parse`: the fragment is cut off at the first `#`, the
rest is parsed, and a non-empty fragment must unescape. -/
def urlParse (validAuthority : GoString → Bool) (rawURL : GoString) : Except GoError URL :=
  match parseURL validAuthority (cutByte 35 rawURL).1 with
  | Except.error e => Except.error e
  | Except.ok url =>
    if (cutByte 35 rawURL).2.1 = [] then Except.ok url
    else
      match unescape (cutByte 35 rawURL).2.1 with
      | none => Except.error GoError.escapeError
      | some _ => Except.ok url

/-! ## `src/document.go`: URIs and the document store -/

/-- The function `uriToPath`; `windows` is the test `runtime.GOOS == "windows"`. -/
def uriToPath (validAuthority : GoString → Bool) (windows : Bool) (uri : GoString) :
    Except GoError GoString :=
  match urlParse validAuthority (replaceAll5C uri) with
  | Except.error e => Except.error e
  | Except.ok parsed =>
    if parsed.Scheme ≠ str "file" then Except.error GoError.notFileURI
    else if windows then Except.error GoError.windowsNotSupported
    else Except.ok parsed.Path

/-- The function `normalizePath`. -/
def normalizePath (validAuthority : GoString → Bool) (windows : Bool) (pathOrUri : GoString) :
    Except GoError GoString :=
  match uriToPath validAuthority windows pathOrUri with
  | Except.error e => Except.error (GoError.wrapped pathOrUri e)
  | Except.ok path => Except.ok path

/-- The map `documents` of the struct `Lsp`: the first entry of a key is its
value. -/
structure Lsp where
  documents : List (GoString × document)
deriving Repr

/-- The map read `s.documents[path]`. -/
def Lsp.lookup (s : Lsp) (path : GoString) : Option document :=
  (s.documents.find? (fun e => decide (e.1 = path))).map (fun e => e.2)

/-- The method `Lsp.DidOpen`: the document and the store afterwards. -/
def Lsp.DidOpen (validAuthority : GoString → Bool) (windows : Bool) (s : Lsp)
    (uri text : GoString) : Except GoError (document × Lsp) :=
  match normalizePath validAuthority windows uri with
  | Except.error e => Except.error e
  | Except.ok path =>
    let doc := newDocument uri path text
    Except.ok (doc, { documents := (path, doc) :: s.documents })

/-- The method `Lsp.Get`: `none` is the result `(nil, false)`. -/
def Lsp.Get (validAuthority : GoString → Bool) (windows : Bool) (s : Lsp)
    (pathOrURI : GoString) : Option document :=
  match normalizePath validAuthority windows pathOrURI with
  | Except.error _ => none
  | Except.ok path => s.lookup path

/-! ## `src/main.go`: diagnostics and hover -/

/-- The `errors.Location` of homescript: `uint` fields. -/
structure Location where
  Line : Nat
  Column : Nat
  Index : Nat
deriving DecidableEq, Repr

/-- The `errors.Span` of homescript. -/
structure Span where
  Start : Location
  End : Location
deriving DecidableEq, Repr

/-- An analyzer record as `refreshDiagnosticsOfDocument` reads it. -/
structure AnalyzerDiagnostic where
  Severity : Nat
  Kind : GoString
  Message : GoString
  Span : Span
deriving DecidableEq, Repr

/-- The three constants `homescript.Error`, `homescript.Warning` and
`homescript.Info`, declared outside the repository. -/
structure SeverityConstants where
  Error : Nat
  Warning : Nat
  Info : Nat
deriving DecidableEq, Repr

/-- The `protocol.Diagnostic` fields that are set. -/
structure Diagnostic where
  Range : Range
  Severity : Nat
  Source : GoString
  Message : GoString
deriving DecidableEq, Repr

/-- The `protocol.PublishDiagnosticsParams` handed to `notify`. -/
structure PublishDiagnosticsParams where
  URI : GoString
  Diagnostics : List Diagnostic
deriving DecidableEq, Repr

/-- The variable `version`. -/
def version : GoString := str "2.0.0"

/-- The switch on `err.Severity`. -/
def severityOf (k : SeverityConstants) (sev : Nat) : Nat :=
  if sev = k.Error then 1
  else if sev = k.Warning then 2
  else if sev = k.Info then 3
  else 0

/-- The diagnostic appended by one iteration of the loop of
`refreshDiagnosticsOfDocument`. -/
def buildDiagnostic (k : SeverityConstants) (err : AnalyzerDiagnostic) : Diagnostic :=
  { Range :=
      { Start := { Line := subUint32 (toUint32 err.Span.Start.Line) 1,
                   Character := subUint32 (toUint32 err.Span.Start.Column) 1 },
        End := { Line := subUint32 (toUint32 err.Span.End.Line) 1,
                 Character := toUint32 err.Span.End.Column } },
    Severity := severityOf k err.Severity,
    Source := str "Homescript@" ++ version,
    Message := err.Kind ++ str ": " ++ err.Message }

/-- The function `refreshDiagnosticsOfDocument`: the parameters it hands to
`notify`. `analyze` is the diagnostics result of `homescript.Analyze` on the
content and the path. -/
def refreshDiagnosticsOfDocument (k : SeverityConstants)
    (analyze : GoString → GoString → List AnalyzerDiagnostic) (doc : document) :
    PublishDiagnosticsParams :=
  if (analyze doc.Content doc.Path).length = 0 then { URI := doc.URI, Diagnostics := [] }
  else
    { URI := doc.URI,
      Diagnostics := (analyze doc.Content doc.Path).foldl
        (fun diagnostics err => diagnostics ++ [buildDiagnostic k err]) [] }

/-- A symbol record of the analyzer as `hover` reads it. -/
structure Symbol where
  Span : Span
  Typ : GoString
deriving DecidableEq, Repr

/-- The `protocol.Hover` with its `MarkupContent`. -/
structure Hover where
  Kind : GoString
  Value : GoString
deriving DecidableEq, Repr

/-- The constant `protocol.MarkupKindMarkdown`. -/
def MarkupKindMarkdown : GoString := str "markdown"

/-- Addition on the 64-bit `uint`. -/
def addUint64 (a b : Nat) : Nat := (a + b) % 2 ^ 64

/-- The two nested conditions of the loop of `hover`. -/
def hoverMatches (pos : Position) (symbol : Symbol) : Bool :=
  decide ((symbol.Span.Start.Line = addUint64 pos.Line 1
      ∨ symbol.Span.End.Line = addUint64 pos.Line 1)
    ∧ (addUint32 pos.Character 1 ≤ toUint32 symbol.Span.End.Column
      ∧ addUint32 pos.Character 1 ≥ toUint32 symbol.Span.Start.Column))

/-- The loop of `hover` over the symbols. -/
def hoverLoop (pos : Position) : List Symbol → Option Hover
  | [] => none
  | symbol :: rest =>
    if hoverMatches pos symbol then
      some { Kind := MarkupKindMarkdown, Value := symbol.Typ }
    else hoverLoop pos rest

/-- The handler `hover`: the hover (or nil) and the error (or nil).
`symbols` is the symbol result of `homescript.Analyze` on the content and
the path. -/
def hover (validAuthority : GoString → Bool) (windows : Bool) (lspServer : Lsp)
    (symbols : GoString → GoString → List Symbol) (uri : GoString) (pos : Position) :
    Option Hover × Option GoError :=
  match lspServer.Get validAuthority windows uri with
  | none => (none, none)
  | some doc => (hoverLoop pos (symbols doc.Content doc.Path), none)

/-! ## Hover as the specification words it -/

/-- A symbol overlaps a position as the specification says it: one of its
boundary lines is `position.Line + 1`, and
`Start.Column <= position.Character + 1 <= End.Column`, in unbounded
arithmetic. -/
def specOverlaps (pos : Position) (symbol : Symbol) : Bool :=
  decide ((symbol.Span.Start.Line = pos.Line + 1 ∨ symbol.Span.End.Line = pos.Line + 1)
    ∧ symbol.Span.Start.Column ≤ pos.Character + 1
    ∧ pos.Character + 1 ≤ symbol.Span.End.Column)

/-- The hover the specification describes: the type of the first overlapping
symbol, as markdown. -/
def specHover (pos : Position) (symbols : List Symbol) : Option Hover :=
  (symbols.find? (specOverlaps pos)).map
    (fun symbol => { Kind := MarkupKindMarkdown, Value := symbol.Typ })

/-- A string that is empty or starts with the byte `/`. -/
def rooted (p : GoString) : Prop := p = [] ∨ ∃ tl : GoString, p = 47 :: tl

/-- An authority check for the examples: every authority is accepted. -/
def sampleAuthority (_ : GoString) : Bool := true

/-! ## Lemmas on slices and on the change loop -/

theorem sliceTo_of_le (c : GoString) (s : Int) (h0 : 0 ≤ s) (h1 : s ≤ (c.length : Int)) :
    sliceTo c s = some (c.take s.toNat) := by
  unfold sliceTo slice
  rw [if_pos ⟨le_refl 0, h0, h1⟩]
  simp

theorem sliceFrom_of_le (c : GoString) (e : Int) (h0 : 0 ≤ e) (h1 : e ≤ (c.length : Int)) :
    sliceFrom c e = some (c.drop e.toNat) := by
  unfold sliceFrom slice
  rw [if_pos ⟨h0, h1, le_refl _⟩]
  simp

theorem applyLoop_of_inBounds (ix : Range → GoString → Int × Int) (changes : List Change) :
    ∀ d : document, resolvesInBounds ix d.Content changes = true →
      applyLoop ix d changes
        = some { d with Content := changes.foldl (specStep ix) d.Content } := by
  induction changes with
  | nil => intro d _; rfl
  | cons ch rest ih =>
    intro d h
    cases ch with
    | ranged r text =>
      simp only [resolvesInBounds, changeInBounds, Bool.and_eq_true, decide_eq_true_eq] at h
      obtain ⟨⟨h0, h1, h2⟩, hrest⟩ := h
      have ha := sliceTo_of_le d.Content (ix r d.Content).1 h0 (le_trans h1 h2)
      have hb := sliceFrom_of_le d.Content (ix r d.Content).2 (le_trans h0 h1) h2
      simp only [applyLoop, ha, hb, List.foldl_cons]
      exact ih { d with Content := specStep ix d.Content (Change.ranged r text) } hrest
    | whole text =>
      simp only [resolvesInBounds, changeInBounds, Bool.true_and] at h
      simp only [applyLoop, List.foldl_cons]
      exact ih { d with Content := text } h
    | other =>
      simp only [resolvesInBounds, changeInBounds, Bool.true_and] at h
      simp only [applyLoop, List.foldl_cons]
      exact ih d h

theorem resolvesInBounds_append (ix : Range → GoString → Int × Int) (xs ys : List Change) :
    ∀ c : GoString, resolvesInBounds ix c (xs ++ ys)
      = (resolvesInBounds ix c xs && resolvesInBounds ix (xs.foldl (specStep ix) c) ys) := by
  induction xs with
  | nil => intro c; simp [resolvesInBounds]
  | cons ch rest ih =>
    intro c
    have e := ih (specStep ix c ch)
    show resolvesInBounds ix c (ch :: (rest ++ ys)) = _
    rw [resolvesInBounds, resolvesInBounds, List.foldl_cons, e, Bool.and_assoc]

theorem ApplyChanges_of_inBounds (ix : Range → GoString → Int × Int) (d : document)
    (changes : List Change) (h : resolvesInBounds ix d.Content changes = true) :
    ApplyChanges ix d changes
      = some { d with Content := changes.foldl (specStep ix) d.Content, lines := none } := by
  unfold ApplyChanges
  rw [applyLoop_of_inBounds ix changes d h]
  rfl

theorem ApplyChanges_lines (ix : Range → GoString → Int × Int) (d d1 : document)
    (changes : List Change) (h : ApplyChanges ix d changes = some d1) : d1.lines = none := by
  unfold ApplyChanges at h
  cases hl : applyLoop ix d changes with
  | none => rw [hl] at h; cases h
  | some d0 => rw [hl] at h; cases h; rfl

theorem wrapInt_of_range (x : Int) (h0 : -2 ^ 63 ≤ x) (h1 : x < 2 ^ 63) : wrapInt x = x := by
  unfold wrapInt
  omega

theorem slice_of_le (s : GoString) (lo hi : Int) (h0 : 0 ≤ lo) (h1 : lo ≤ hi)
    (h2 : hi ≤ (s.length : Int)) : slice s lo hi = some ((s.take hi.toNat).drop lo.toNat) := by
  unfold slice
  rw [if_pos ⟨h0, h1, h2⟩]

theorem slice_of_gt (s : GoString) (lo hi : Int) (h : (s.length : Int) < hi) :
    slice s lo hi = none := by
  unfold slice
  rw [if_neg]
  omega

theorem slice_of_lt (s : GoString) (lo hi : Int) (h : hi < lo) : slice s lo hi = none := by
  unfold slice
  rw [if_neg]
  omega

theorem GetLines_fst_of_none (d : document) (h : d.lines = none) :
    (GetLines d).1 = splitNewline d.Content := by
  unfold GetLines
  rw [h]

theorem GetLine_of_line (d : document) (n : Nat) (line : GoString)
    (h : (GetLines d).1[n]? = some line) :
    GetLine d (n : Int) = some ((line, true), (GetLines d).2) := by
  have hlt : n < (GetLines d).1.length := (List.getElem?_eq_some.mp h).1
  unfold GetLine indexAt
  have hc : ¬ ((n : Int) < 0 ∨ (n : Int) > ((GetLines d).1.length : Int)) := by omega
  have hi : 0 ≤ (n : Int) ∧ (n : Int) < ((GetLines d).1.length : Int) := by omega
  simp only [if_neg hc, if_pos hi, Int.toNat_ofNat, h, Option.map_some']

theorem GetLine_past (d : document) (n : Nat) (h : (GetLines d).1.length < n) :
    GetLine d (n : Int) = some (([], false), (GetLines d).2) := by
  unfold GetLine
  have hc : (n : Int) < 0 ∨ (n : Int) > ((GetLines d).1.length : Int) := by omega
  simp only [if_pos hc]

theorem LookBehind_of_line (d : document) (pos : Position) (length : Int) (line : GoString)
    (hwf : pos.wf) (hline : (GetLines d).1[pos.Line]? = some line)
    (hc : pos.Character ≤ line.length) (hl : 0 ≤ length) :
    LookBehind d pos length
      = some ((line.take pos.Character).drop (pos.Character - length.toNat), (GetLines d).2) := by
  have hch : pos.Character < 2 ^ 32 := hwf.2
  unfold LookBehind
  rw [GetLine_of_line d pos.Line line hline]
  simp only [Bool.true_eq_false, if_false]
  by_cases hlen : length > (pos.Character : Int)
  · rw [if_pos hlen, slice_of_le line 0 pos.Character (le_refl 0) (by omega) (by omega)]
    have e : pos.Character - length.toNat = 0 := by omega
    simp [e]
  · rw [if_neg hlen, wrapInt_of_range _ (by omega) (by omega),
      slice_of_le line _ pos.Character (by omega) (by omega) (by omega)]
    have e : ((pos.Character : Int) - length).toNat = pos.Character - length.toNat := by omega
    simp [e]

theorem LookForward_of_line (d : document) (pos : Position) (length : Int) (line : GoString)
    (hline : (GetLines d).1[pos.Line]? = some line)
    (hc : pos.Character ≤ line.length) (hl : 0 ≤ length)
    (hov : (pos.Character : Int) + length < 2 ^ 63) :
    LookForward d pos length
      = some ((line.take (min line.length (pos.Character + length.toNat))).drop pos.Character,
          (GetLines d).2) := by
  unfold LookForward
  rw [GetLine_of_line d pos.Line line hline]
  simp only [Bool.true_eq_false, if_false]
  rw [wrapInt_of_range _ (by omega) hov]
  by_cases hlen : (line.length : Int) ≤ (pos.Character : Int) + length
  · rw [if_pos hlen, slice_of_le line pos.Character line.length (by omega) (by omega) (le_refl _)]
    have e : min line.length (pos.Character + length.toNat) = line.length := by omega
    simp [e]
  · rw [if_neg hlen, slice_of_le line pos.Character _ (by omega) (by omega) (by omega)]
    have e : min line.length (pos.Character + length.toNat)
        = ((pos.Character : Int) + length).toNat := by omega
    simp [e]

theorem foldl_append_singleton {α β : Type} (f : α → β) (l : List α) :
    ∀ acc : List β, l.foldl (fun ds e => ds ++ [f e]) acc = acc ++ l.map f := by
  induction l with
  | nil => intro acc; simp
  | cons a rest ih => intro acc; simp [ih]

theorem refreshDiagnostics_eq_map (k : SeverityConstants)
    (analyze : GoString → GoString → List AnalyzerDiagnostic) (doc : document) :
    (refreshDiagnosticsOfDocument k analyze doc).Diagnostics
      = (analyze doc.Content doc.Path).map (buildDiagnostic k) := by
  unfold refreshDiagnosticsOfDocument
  by_cases h : (analyze doc.Content doc.Path).length = 0
  · rw [if_pos h, List.length_eq_zero.mp h]
    rfl
  · rw [if_neg h, foldl_append_singleton]
    rfl

theorem hoverLoop_eq_specHover (pos : Position) (hwf : pos.wf)
    (hch : pos.Character + 1 < 2 ^ 32) (symbols : List Symbol)
    (hcols : ∀ s ∈ symbols, s.Span.Start.Column < 2 ^ 32 ∧ s.Span.End.Column < 2 ^ 32) :
    hoverLoop pos symbols = specHover pos symbols := by
  have hline : pos.Line < 2 ^ 32 := hwf.1
  induction symbols with
  | nil => rfl
  | cons s rest ih =>
    have hs := hcols s (List.mem_cons_self s rest)
    have hrest := ih (fun t ht => hcols t (List.mem_cons_of_mem s ht))
    have e : hoverMatches pos s = specOverlaps pos s := by
      unfold hoverMatches specOverlaps addUint64 addUint32 toUint32
      rw [Nat.mod_eq_of_lt (show pos.Line + 1 < 2 ^ 64 by omega), Nat.mod_eq_of_lt hch,
        Nat.mod_eq_of_lt hs.1, Nat.mod_eq_of_lt hs.2]
      apply decide_eq_decide.mpr
      constructor
      · rintro ⟨h1, h2, h3⟩
        exact ⟨h1, h3, h2⟩
      · rintro ⟨h1, h2, h3⟩
        exact ⟨h1, h3, h2⟩
    unfold hoverLoop specHover
    rw [e, List.find?_cons]
    cases hov : specOverlaps pos s with
    | true => simp
    | false =>
      simp only [Bool.false_eq_true, if_false]
      rw [hrest]
      rfl

theorem unescape_cons_of_ne (a : Byte) (tl : GoString) (h : a ≠ 37) :
    unescape (a :: tl) = (unescape tl).map (fun r => a :: r) := by
  conv_lhs => unfold unescape
  simp only [if_neg h]

theorem unescape_rooted (s p : GoString) (hs : rooted s) (h : unescape s = some p) :
    rooted p := by
  rcases hs with rfl | ⟨tl, rfl⟩
  · simp only [unescape, Option.some.injEq] at h
    exact Or.inl h.symm
  · rw [unescape_cons_of_ne 47 tl (by decide)] at h
    cases hu : unescape tl with
    | none => rw [hu] at h; cases h
    | some r =>
      rw [hu] at h
      simp only [Option.map_some', Option.some.injEq] at h
      exact Or.inr ⟨r, h.symm⟩

theorem parseURL_path_rooted (va : GoString → Bool) (s : GoString) (r : URL)
    (h : parseURL va s = Except.ok r) (hsch : r.Scheme ≠ []) : rooted r.Path := by
  unfold parseURL at h
  split at h
  · cases h
  · split at h
    · cases h
      exact absurd rfl hsch
    · split at h
      · cases h
      · rename_i scheme0 rest0 _
        simp only at h
        split at h
        · cases h
          exact Or.inl rfl
        · rename_i hopaque
          split at h
          · cases h
          · split at h
            · split at h
              · cases h
              · split at h
                · cases h
                · rename_i path hu
                  cases h
                  refine unescape_rooted _ path ?_ hu
                  by_cases hc : (cutByte 47 (List.drop 2 (dropQuery rest0))).2.2 = true
                  · rw [if_pos hc]
                    exact Or.inr ⟨_, rfl⟩
                  · rw [if_neg hc]
                    exact Or.inl rfl
            · split at h
              · cases h
              · rename_i path hu
                cases h
                refine unescape_rooted _ path ?_ hu
                have hpre : hasPrefix (dropQuery rest0) [47] = true := by
                  by_contra hne
                  exact hopaque ⟨by simpa using hne, hsch⟩
                unfold hasPrefix at hpre
                cases hq : dropQuery rest0 with
                | nil => rw [hq] at hpre; simp at hpre
                | cons a tl =>
                  rw [hq] at hpre
                  simp only [List.isPrefixOf, Bool.and_eq_true, beq_iff_eq] at hpre
                  exact Or.inr ⟨tl, by rw [hpre.1]⟩

theorem urlParse_of_ok (va : GoString → Bool) (s : GoString) (r : URL)
    (h : urlParse va s = Except.ok r) : parseURL va (cutByte 35 s).1 = Except.ok r := by
  unfold urlParse at h
  split at h
  · cases h
  · rename_i url hp
    split at h
    · cases h
      exact hp
    · split at h
      · cases h
      · cases h
        exact hp

theorem uriToPath_rooted (va : GoString → Bool) (windows : Bool) (u p : GoString)
    (h : uriToPath va windows u = Except.ok p) : rooted p := by
  unfold uriToPath at h
  split at h
  · cases h
  · rename_i parsed hp
    split at h
    · cases h
    · rename_i hfile
      split at h
      · cases h
      · cases h
        have hs : parsed.Scheme = str "file" := by simpa using hfile
        refine parseURL_path_rooted va _ parsed (urlParse_of_ok va _ parsed hp) ?_
        rw [hs]
        decide

theorem replaceAll5C_rooted (p : GoString) (h : rooted p) : rooted (replaceAll5C p) := by
  rcases h with rfl | ⟨tl, rfl⟩
  · exact Or.inl rfl
  · refine Or.inr ⟨replaceAll5CAux 0 tl, ?_⟩
    unfold replaceAll5C
    rw [replaceAll5CAux, if_neg]
    intro hc
    exact absurd hc.1 (by decide)

theorem cutByte_rooted (p : GoString) (h : rooted p) : rooted (cutByte 35 p).1 := by
  rcases h with rfl | ⟨tl, rfl⟩
  · exact Or.inl rfl
  · refine Or.inr ⟨(cutByte 35 tl).1, ?_⟩
    rw [cutByte, if_neg (by decide)]

theorem getScheme_rooted (q : GoString) (h : rooted q) : getScheme q = Except.ok ([], q) := by
  rcases h with rfl | ⟨tl, rfl⟩
  · rfl
  · unfold getScheme
    rw [getSchemeAux, if_neg (by decide), if_neg (by decide), if_neg (by decide)]

theorem parseURL_scheme_of_rooted (va : GoString → Bool) (q : GoString) (r : URL)
    (hq : rooted q) (h : parseURL va q = Except.ok r) : r.Scheme = [] := by
  unfold parseURL at h
  rw [getScheme_rooted q hq] at h
  simp only [toLower, List.map_nil] at h
  split at h
  · cases h
  · split at h
    · cases h
      rfl
    · split at h
      · rename_i hc
        exact absurd rfl hc.2
      · split at h
        · cases h
        · split at h
          · split at h
            · cases h
            · split at h
              · cases h
              · cases h
                rfl
          · split at h
            · cases h
            · cases h
              rfl

theorem uriToPath_of_rooted (va : GoString → Bool) (windows : Bool) (p : GoString)
    (hp : rooted p) : ∃ e : GoError, uriToPath va windows p = Except.error e := by
  unfold uriToPath
  cases hu : urlParse va (replaceAll5C p) with
  | error e => exact ⟨e, rfl⟩
  | ok parsed =>
    have hs : parsed.Scheme = [] :=
      parseURL_scheme_of_rooted va _ parsed
        (cutByte_rooted _ (replaceAll5C_rooted p hp)) (urlParse_of_ok va _ parsed hu)
    refine ⟨GoError.notFileURI, ?_⟩
    simp only
    rw [if_pos]
    rw [hs]
    decide

theorem normalizePath_of_ok (va : GoString → Bool) (windows : Bool) (u p : GoString)
    (h : normalizePath va windows u = Except.ok p) : uriToPath va windows u = Except.ok p := by
  unfold normalizePath at h
  split at h
  · cases h
  · rename_i path hu
    cases h
    exact hu

theorem normalizePath_of_rooted (va : GoString → Bool) (windows : Bool) (p : GoString)
    (hp : rooted p) : ∃ e : GoError, normalizePath va windows p = Except.error e := by
  obtain ⟨e, he⟩ := uriToPath_of_rooted va windows p hp
  exact ⟨GoError.wrapped p e, by unfold normalizePath; rw [he]⟩

/-! ## Theorems on `document.go` -/

/-- C1: when every ranged change resolves, against the content it is applied
to, to offsets `0 <= s <= e <= len(c)`, `ApplyChanges` returns, and the
content it leaves is the left-to-right fold of the changes over the initial
content, a ranged change turning `c` into `c[:s] + t + c[e:]` and a
whole-document change turning it into its text; applying `xs ++ ys` leaves
the very document that applying `xs` and then `ys` leaves. -/
theorem ApplyChanges_sequential (ix : Range → GoString → Int × Int) (d : document)
    (xs ys : List Change) (h : resolvesInBounds ix d.Content (xs ++ ys) = true) :
    ∃ d1 d2 : document,
      ApplyChanges ix d xs = some d1 ∧ ApplyChanges ix d1 ys = some d2 ∧
      ApplyChanges ix d (xs ++ ys) = some d2 ∧
      d1.Content = xs.foldl (specStep ix) d.Content ∧
      d2.Content = ys.foldl (specStep ix) d1.Content ∧
      d2.Content = (xs ++ ys).foldl (specStep ix) d.Content := by
  have hsplit := h
  rw [resolvesInBounds_append, Bool.and_eq_true] at hsplit
  obtain ⟨hx, hy⟩ := hsplit
  have e1 := ApplyChanges_of_inBounds ix d xs hx
  have e2 := ApplyChanges_of_inBounds ix
    { d with Content := xs.foldl (specStep ix) d.Content, lines := none } ys hy
  have e12 := ApplyChanges_of_inBounds ix d (xs ++ ys) h
  refine ⟨_, _, e1, e2, ?_, rfl, rfl, ?_⟩
  · rw [e12, List.foldl_append]
  · simp [List.foldl_append]

/-- C1, at a concrete batch: on "hello", replacing bytes 1..3 by "XY" and
then byte 0..1 of the result by nothing leaves "XYlo". -/
theorem ApplyChanges_sequential_witness :
    ∃ d1 d2 : document,
      ApplyChanges sampleIndexesIn (newDocument [] [] (str "hello"))
        [Change.ranged ⟨⟨0, 1⟩, ⟨0, 3⟩⟩ (str "XY")] = some d1 ∧
      ApplyChanges sampleIndexesIn d1 [Change.ranged ⟨⟨0, 0⟩, ⟨0, 1⟩⟩ []] = some d2 ∧
      ApplyChanges sampleIndexesIn (newDocument [] [] (str "hello"))
        ([Change.ranged ⟨⟨0, 1⟩, ⟨0, 3⟩⟩ (str "XY")]
          ++ [Change.ranged ⟨⟨0, 0⟩, ⟨0, 1⟩⟩ []]) = some d2 ∧
      d1.Content = [Change.ranged ⟨⟨0, 1⟩, ⟨0, 3⟩⟩ (str "XY")].foldl
        (specStep sampleIndexesIn) (newDocument [] [] (str "hello")).Content ∧
      d2.Content = [Change.ranged ⟨⟨0, 0⟩, ⟨0, 1⟩⟩ []].foldl
        (specStep sampleIndexesIn) d1.Content ∧
      d2.Content = ([Change.ranged ⟨⟨0, 1⟩, ⟨0, 3⟩⟩ (str "XY")]
          ++ [Change.ranged ⟨⟨0, 0⟩, ⟨0, 1⟩⟩ []]).foldl
        (specStep sampleIndexesIn) (newDocument [] [] (str "hello")).Content :=
  ApplyChanges_sequential sampleIndexesIn (newDocument [] [] (str "hello"))
    [Change.ranged ⟨⟨0, 1⟩, ⟨0, 3⟩⟩ (str "XY")] [Change.ranged ⟨⟨0, 0⟩, ⟨0, 1⟩⟩ []]
    (by decide)

/-- C2: whatever line cache the document held, whenever `ApplyChanges` returns
(and it returns whenever every ranged change resolves within the content) the
cache is cleared, `GetLines` returns exactly the split of the new content on
the newline byte (a carriage return stays inside its line), and `GetLine` at
an index below the number of lines returns that line of the new content; and
for any document whose cache, when present, is the exact split of its
content, `GetLines` returns that split, leaves the content alone and leaves a
cache that is again the exact split. -/
theorem GetLines_after_ApplyChanges (ix : Range → GoString → Int × Int) (d : document)
    (changes : List Change) :
    (∀ d1 : document, ApplyChanges ix d changes = some d1 →
      d1.lines = none ∧
      (GetLines d1).1 = splitNewline d1.Content ∧
      (∀ (i : Nat) (l : GoString), (splitNewline d1.Content)[i]? = some l →
        (GetLine d1 (i : Int)).map (fun r => r.1) = some (l, true))) ∧
    (resolvesInBounds ix d.Content changes = true →
      ∃ d1 : document, ApplyChanges ix d changes = some d1 ∧
        d1.Content = changes.foldl (specStep ix) d.Content) ∧
    (∀ e : document, cacheExact e = true →
      (GetLines e).1 = splitNewline e.Content ∧ (GetLines e).2.Content = e.Content ∧
      (GetLines e).2.lines = some (splitNewline e.Content) ∧
      cacheExact (GetLines e).2 = true) := by
  refine ⟨?_, ?_, ?_⟩
  · intro d1 h
    have hn := ApplyChanges_lines ix d d1 changes h
    have hg := GetLines_fst_of_none d1 hn
    refine ⟨hn, hg, ?_⟩
    intro i l hl
    rw [← hg] at hl
    rw [GetLine_of_line d1 i l hl]
    rfl
  · intro hb
    exact ⟨_, ApplyChanges_of_inBounds ix d changes hb, rfl⟩
  · intro e he
    unfold cacheExact at he
    unfold GetLines cacheExact
    cases hl : e.lines with
    | none => simp
    | some ls =>
      rw [hl] at he
      simp only [decide_eq_true_eq] at he
      simp [hl, he]

/-- C2, at a concrete document: a stale cache `["old"]` does not survive a
whole-document change to "a\r\nb"; the lines are then "a\r" and "b". -/
theorem GetLines_after_ApplyChanges_witness :
    (GetLines { newDocument [] [] (str "a\r\nb") with lines := none }).1
      = [str "a\r", str "b"] ∧
    (GetLine { newDocument [] [] (str "a\r\nb") with lines := none } ((1 : Nat) : Int)).map
      (fun r => r.1) = some (str "b", true) :=
  ⟨((GetLines_after_ApplyChanges sampleIndexesIn
      { newDocument [] [] (str "old") with lines := some [str "old"] }
      [Change.whole (str "a\r\nb")]).1
      { newDocument [] [] (str "a\r\nb") with lines := none } (by decide)).2.1.trans
      (by decide),
   ((GetLines_after_ApplyChanges sampleIndexesIn
      { newDocument [] [] (str "old") with lines := some [str "old"] }
      [Change.whole (str "a\r\nb")]).1
      { newDocument [] [] (str "a\r\nb") with lines := none } (by decide)).2.2 1 (str "b")
      (by decide)⟩

/-- C3: for every document the index equal to the number of lines passes the
guard `index > len(lines)` and `lines[index]` panics, where the not-found
result is claimed; so on the one-line document "hello" at index 1. -/
theorem GetLine_at_length_panics :
    (∀ d : document, GetLine d ((GetLines d).1.length : Int) = none) ∧
    (GetLines (newDocument [] [] (str "hello"))).1.length = 1 ∧
    GetLine (newDocument [] [] (str "hello")) 1 = none := by
  refine ⟨?_, by decide, by decide⟩
  intro d
  unfold GetLine indexAt
  simp

/-- C4: when the line of the position exists, the cursor is within it and
`length >= 0`, `LookBehind` returns `line[max(0, Character - length) : Character]`,
which has `min(length, Character)` bytes. -/
theorem LookBehind_clamped (d : document) (pos : Position) (length : Int) (line : GoString)
    (hwf : pos.wf) (hline : (GetLines d).1[pos.Line]? = some line)
    (hc : pos.Character ≤ line.length) (hl : 0 ≤ length) :
    (LookBehind d pos length).map (fun r => r.1)
      = some ((line.take pos.Character).drop (pos.Character - length.toNat)) ∧
    ((line.take pos.Character).drop (pos.Character - length.toNat)).length
      = min length.toNat pos.Character := by
  refine ⟨?_, ?_⟩
  · rw [LookBehind_of_line d pos length line hwf hline hc hl]
    rfl
  · simp only [List.length_drop, List.length_take]
    omega

/-- C4, the example of the specification: on "hello" at character 2 with
length 5 the result is "he", of 2 bytes. -/
theorem LookBehind_clamped_witness :
    (LookBehind (newDocument [] [] (str "hello")) ⟨0, 2⟩ 5).map (fun r => r.1)
      = some (str "he") ∧ (str "he").length = min (5 : Int).toNat 2 :=
  LookBehind_clamped (newDocument [] [] (str "hello")) ⟨0, 2⟩ 5 (str "hello")
    (by decide) (by decide) (by decide) (by decide)

/-- C5, refuted as stated: on "hello" at character 1 with the length
`2^63 - 1`, the largest `int`, the sum `charIdx + length` wraps to `-2^63`,
the clamp test fails and `line[1 : -2^63]` panics, where "ello" is claimed. -/
theorem LookForward_overflow_counterexample :
    (GetLines (newDocument [] [] (str "hello"))).1[0]? = some (str "hello") ∧
    (1 : Nat) ≤ (str "hello").length ∧ (0 : Int) ≤ 2 ^ 63 - 1 ∧ ((2 : Int) ^ 63 - 1 < 2 ^ 63) ∧
    LookForward (newDocument [] [] (str "hello")) ⟨0, 1⟩ (2 ^ 63 - 1) = none ∧
    (LookForward (newDocument [] [] (str "hello")) ⟨0, 1⟩ (2 ^ 63 - 1)).map (fun r => r.1)
      ≠ some (((str "hello").take (min (str "hello").length (1 + ((2 : Int) ^ 63 - 1).toNat))).drop 1) := by
  decide

/-- C5, amended: when the line of the position exists, the cursor is within
it, `length >= 0` and `Character + length` does not overflow the 64-bit `int`,
`LookForward` returns `line[Character : min(len(line), Character + length)]`. -/
theorem LookForward_clamped (d : document) (pos : Position) (length : Int) (line : GoString)
    (hline : (GetLines d).1[pos.Line]? = some line)
    (hc : pos.Character ≤ line.length) (hl : 0 ≤ length)
    (hov : (pos.Character : Int) + length < 2 ^ 63) :
    (LookForward d pos length).map (fun r => r.1)
      = some ((line.take (min line.length (pos.Character + length.toNat))).drop pos.Character) := by
  rw [LookForward_of_line d pos length line hline hc hl hov]
  rfl

/-- C5, the example of the specification: on "hello" at character 2 with
length 10 the result is "llo". -/
theorem LookForward_clamped_witness :
    (LookForward (newDocument [] [] (str "hello")) ⟨0, 2⟩ 10).map (fun r => r.1)
      = some (str "llo") :=
  LookForward_clamped (newDocument [] [] (str "hello")) ⟨0, 2⟩ 10 (str "hello")
    (by decide) (by decide) (by decide) (by decide)

/-- C6, refuted as stated: on the line "hello" a position at character 6,
one past the end of the line, makes both `LookBehind` and `LookForward` slice
out of bounds. -/
theorem Look_character_past_line_counterexample :
    (GetLines (newDocument [] [] (str "hello"))).1[0]? = some (str "hello") ∧
    LookBehind (newDocument [] [] (str "hello")) ⟨0, 6⟩ 1 = none ∧
    LookForward (newDocument [] [] (str "hello")) ⟨0, 6⟩ 1 = none := by
  decide

/-- C6, amended: for `length >= 0` with `Character + length` inside the
64-bit `int`, `LookBehind` and `LookForward` return the empty string when the
line index is greater than the number of lines, and return a slice of the
line, with no out-of-bounds access, when the line exists and the character is
at most its length. -/
theorem Look_no_panic (d : document) (pos : Position) (length : Int)
    (hwf : pos.wf) (hl : 0 ≤ length) (hov : (pos.Character : Int) + length < 2 ^ 63) :
    ((GetLines d).1.length < pos.Line →
      (LookBehind d pos length).map (fun r => r.1) = some [] ∧
      (LookForward d pos length).map (fun r => r.1) = some []) ∧
    (∀ line : GoString, (GetLines d).1[pos.Line]? = some line → pos.Character ≤ line.length →
      (LookBehind d pos length).map (fun r => r.1)
        = some ((line.take pos.Character).drop (pos.Character - length.toNat)) ∧
      (LookForward d pos length).map (fun r => r.1)
        = some ((line.take (min line.length (pos.Character + length.toNat))).drop
            pos.Character)) := by
  refine ⟨?_, ?_⟩
  · intro hpast
    unfold LookBehind LookForward
    rw [GetLine_past d pos.Line hpast]
    exact ⟨rfl, rfl⟩
  · intro line hline hc
    rw [LookBehind_of_line d pos length line hwf hline hc hl,
      LookForward_of_line d pos length line hline hc hl hov]
    exact ⟨rfl, rfl⟩

/-- C6, at concrete positions of the document "hello": line 5 of a one-line
document gives two empty strings, and character 5, the end of line 0, gives
"llo" behind and the empty string ahead. -/
theorem Look_no_panic_witness :
    ((LookBehind (newDocument [] [] (str "hello")) ⟨5, 2⟩ 3).map (fun r => r.1) = some [] ∧
     (LookForward (newDocument [] [] (str "hello")) ⟨5, 2⟩ 3).map (fun r => r.1) = some []) ∧
    ((LookBehind (newDocument [] [] (str "hello")) ⟨0, 5⟩ 3).map (fun r => r.1)
        = some (((str "hello").take 5).drop (5 - (3 : Int).toNat)) ∧
     (LookForward (newDocument [] [] (str "hello")) ⟨0, 5⟩ 3).map (fun r => r.1)
        = some (((str "hello").take (min (str "hello").length (5 + (3 : Int).toNat))).drop 5)) :=
  ⟨(Look_no_panic (newDocument [] [] (str "hello")) ⟨5, 2⟩ 3
      (by decide) (by decide) (by decide)).1 (by decide),
   (Look_no_panic (newDocument [] [] (str "hello")) ⟨0, 5⟩ 3
      (by decide) (by decide) (by decide)).2 (str "hello") (by decide) (by decide)⟩

/-! ## Theorems on `main.go` -/

/-- C7: for an analyzer record whose start line, start column and end line
are at least 1 and whose four span values are below `2^32`, the diagnostic
built at the same index by `refreshDiagnosticsOfDocument` has
`Range.Start = (Start.Line - 1, Start.Column - 1)` and
`Range.End = (End.Line - 1, End.Column)`: the end column is carried through. -/
theorem diagnostic_range (k : SeverityConstants)
    (analyze : GoString → GoString → List AnalyzerDiagnostic) (doc : document)
    (i : Nat) (record : AnalyzerDiagnostic)
    (hrec : (analyze doc.Content doc.Path)[i]? = some record)
    (h1 : 1 ≤ record.Span.Start.Line) (h2 : 1 ≤ record.Span.Start.Column)
    (h3 : 1 ≤ record.Span.End.Line)
    (hb : record.Span.Start.Line < 2 ^ 32 ∧ record.Span.Start.Column < 2 ^ 32
      ∧ record.Span.End.Line < 2 ^ 32 ∧ record.Span.End.Column < 2 ^ 32) :
    ∃ diag : Diagnostic,
      (refreshDiagnosticsOfDocument k analyze doc).Diagnostics[i]? = some diag ∧
      diag.Range.Start = { Line := record.Span.Start.Line - 1,
                           Character := record.Span.Start.Column - 1 } ∧
      diag.Range.End = { Line := record.Span.End.Line - 1,
                         Character := record.Span.End.Column } := by
  refine ⟨buildDiagnostic k record, ?_, ?_, ?_⟩
  · rw [refreshDiagnostics_eq_map, List.getElem?_map, hrec]
    rfl
  · obtain ⟨b1, b2, _, _⟩ := hb
    simp only [buildDiagnostic, subUint32, toUint32, Position.mk.injEq]
    constructor <;> omega
  · obtain ⟨_, _, b3, b4⟩ := hb
    simp only [buildDiagnostic, subUint32, toUint32, Position.mk.injEq]
    constructor <;> omega

/-- C7, the example of the specification: the span start=(3,5), end=(3,9) is
emitted as start=(2,4), end=(2,9). -/
theorem diagnostic_range_witness :
    ∃ diag : Diagnostic,
      (refreshDiagnosticsOfDocument ⟨2, 1, 0⟩
        (fun _ _ => [⟨2, str "TypeError", str "mismatch", ⟨⟨3, 5, 0⟩, ⟨3, 9, 0⟩⟩⟩])
        (newDocument [] [] [])).Diagnostics[0]? = some diag ∧
      diag.Range.Start = { Line := 2, Character := 4 } ∧
      diag.Range.End = { Line := 2, Character := 9 } :=
  diagnostic_range ⟨2, 1, 0⟩
    (fun _ _ => [⟨2, str "TypeError", str "mismatch", ⟨⟨3, 5, 0⟩, ⟨3, 9, 0⟩⟩⟩])
    (newDocument [] [] []) 0 ⟨2, str "TypeError", str "mismatch", ⟨⟨3, 5, 0⟩, ⟨3, 9, 0⟩⟩⟩
    rfl (by decide) (by decide) (by decide) (by decide)

/-- C8: the three analyzer severity constants being distinct, the diagnostic
built for a record has severity 1 when the record is an Error, 2 when it is a
Warning, 3 when it is an Info and 0 for every other severity value. -/
theorem diagnostic_severity (k : SeverityConstants)
    (analyze : GoString → GoString → List AnalyzerDiagnostic) (doc : document)
    (i : Nat) (record : AnalyzerDiagnostic)
    (hk : k.Error ≠ k.Warning ∧ k.Error ≠ k.Info ∧ k.Warning ≠ k.Info)
    (hrec : (analyze doc.Content doc.Path)[i]? = some record) :
    ∃ diag : Diagnostic,
      (refreshDiagnosticsOfDocument k analyze doc).Diagnostics[i]? = some diag ∧
      (record.Severity = k.Error → diag.Severity = 1) ∧
      (record.Severity = k.Warning → diag.Severity = 2) ∧
      (record.Severity = k.Info → diag.Severity = 3) ∧
      (record.Severity ≠ k.Error → record.Severity ≠ k.Warning → record.Severity ≠ k.Info →
        diag.Severity = 0) := by
  obtain ⟨hew, hei, hwi⟩ := hk
  refine ⟨buildDiagnostic k record, ?_, ?_, ?_, ?_, ?_⟩
  · rw [refreshDiagnostics_eq_map, List.getElem?_map, hrec]
    rfl
  · intro h
    simp [buildDiagnostic, severityOf, h]
  · intro h
    simp [buildDiagnostic, severityOf, h, Ne.symm hew]
  · intro h
    simp [buildDiagnostic, severityOf, h, Ne.symm hei, Ne.symm hwi]
  · intro h1 h2 h3
    simp [buildDiagnostic, severityOf, h1, h2, h3]

/-- C8, at the constants Info = 0, Warning = 1, Error = 2: a Warning record
gives severity 2. -/
theorem diagnostic_severity_witness :
    ∃ diag : Diagnostic,
      (refreshDiagnosticsOfDocument ⟨2, 1, 0⟩
        (fun _ _ => [⟨1, str "Lint", str "unused", ⟨⟨1, 1, 0⟩, ⟨1, 2, 1⟩⟩⟩])
        (newDocument [] [] [])).Diagnostics[0]? = some diag ∧ diag.Severity = 2 :=
  match diagnostic_severity ⟨2, 1, 0⟩
    (fun _ _ => [⟨1, str "Lint", str "unused", ⟨⟨1, 1, 0⟩, ⟨1, 2, 1⟩⟩⟩])
    (newDocument [] [] []) 0 ⟨1, str "Lint", str "unused", ⟨⟨1, 1, 0⟩, ⟨1, 2, 1⟩⟩⟩
    (by decide) rfl with
  | ⟨diag, hd, _, hw, _, _⟩ => ⟨diag, hd, hw rfl⟩

/-- C9, refuted as stated: at position (0, 0) a symbol on line 1 whose start
and end column are `2^32 + 1` does not overlap in the sense of the
specification, yet `uint32(2^32 + 1) = 1` and `hover` returns its type. -/
theorem hover_column_truncation_counterexample :
    specHover ⟨0, 0⟩ [⟨⟨⟨1, 2 ^ 32 + 1, 0⟩, ⟨1, 2 ^ 32 + 1, 0⟩⟩, str "int"⟩] = none ∧
    hover sampleAuthority false
      ⟨[(str "/a.hms", newDocument (str "file:///a.hms") (str "/a.hms") [])]⟩
      (fun _ _ => [⟨⟨⟨1, 2 ^ 32 + 1, 0⟩, ⟨1, 2 ^ 32 + 1, 0⟩⟩, str "int"⟩])
      (str "file:///a.hms") ⟨0, 0⟩
      = (some { Kind := MarkupKindMarkdown, Value := str "int" }, none) := by
  decide

/-- C9, amended: when the document is found, `position.Character + 1` is
below `2^32` and every symbol column is below `2^32`, `hover` returns, with
no error, the type of the first symbol in table order that overlaps the
position, as markdown, and returns no hover exactly when no symbol overlaps. -/
theorem hover_first_overlap (validAuthority : GoString → Bool) (windows : Bool)
    (lspServer : Lsp) (symbols : GoString → GoString → List Symbol) (uri : GoString)
    (pos : Position) (doc : document)
    (hget : lspServer.Get validAuthority windows uri = some doc)
    (hwf : pos.wf) (hch : pos.Character + 1 < 2 ^ 32)
    (hcols : ∀ s ∈ symbols doc.Content doc.Path,
      s.Span.Start.Column < 2 ^ 32 ∧ s.Span.End.Column < 2 ^ 32) :
    hover validAuthority windows lspServer symbols uri pos
      = (specHover pos (symbols doc.Content doc.Path), none) ∧
    ((hover validAuthority windows lspServer symbols uri pos).1 = none ↔
      ∀ s ∈ symbols doc.Content doc.Path, specOverlaps pos s = false) := by
  have e : hover validAuthority windows lspServer symbols uri pos
      = (specHover pos (symbols doc.Content doc.Path), none) := by
    unfold hover
    rw [hget]
    simp only
    rw [hoverLoop_eq_specHover pos hwf hch _ hcols]
  refine ⟨e, ?_⟩
  rw [e]
  simp [specHover, List.find?_eq_none]

/-- C9, at a concrete table: at position (0, 4) the first of two overlapping
symbols gives the hover. -/
theorem hover_first_overlap_witness :
    hover sampleAuthority false
      ⟨[(str "/a.hms", newDocument (str "file:///a.hms") (str "/a.hms") [])]⟩
      (fun _ _ => [⟨⟨⟨1, 7, 0⟩, ⟨1, 9, 0⟩⟩, str "str"⟩, ⟨⟨⟨1, 3, 0⟩, ⟨1, 5, 0⟩⟩, str "int"⟩,
        ⟨⟨⟨1, 1, 0⟩, ⟨1, 8, 0⟩⟩, str "fn"⟩])
      (str "file:///a.hms") ⟨0, 4⟩
      = (some { Kind := MarkupKindMarkdown, Value := str "int" }, none) :=
  (hover_first_overlap sampleAuthority false
    ⟨[(str "/a.hms", newDocument (str "file:///a.hms") (str "/a.hms") [])]⟩
    (fun _ _ => [⟨⟨⟨1, 7, 0⟩, ⟨1, 9, 0⟩⟩, str "str"⟩, ⟨⟨⟨1, 3, 0⟩, ⟨1, 5, 0⟩⟩, str "int"⟩,
      ⟨⟨⟨1, 1, 0⟩, ⟨1, 8, 0⟩⟩, str "fn"⟩])
    (str "file:///a.hms") ⟨0, 4⟩ (newDocument (str "file:///a.hms") (str "/a.hms") [])
    (by decide) (by decide) (by decide) (by decide)).1

/-! ## Theorems on URI normalisation -/

/-- C10, refuted as stated: `normalizePath` turns the URI "file:///tmp/a.hms"
into the path "/tmp/a.hms", and applied to that path it fails, the path
having no `file` scheme; `Get` finds the opened document by the URI and not
by the path. -/
theorem normalizePath_idempotence_counterexample :
    normalizePath sampleAuthority false (str "file:///tmp/a.hms")
      = Except.ok (str "/tmp/a.hms") ∧
    normalizePath sampleAuthority false (str "/tmp/a.hms")
      = Except.error (GoError.wrapped (str "/tmp/a.hms") GoError.notFileURI) ∧
    (Lsp.DidOpen sampleAuthority false ⟨[]⟩ (str "file:///tmp/a.hms") (str "x")).map
        (fun r => (Lsp.Get sampleAuthority false r.2 (str "file:///tmp/a.hms"),
                   Lsp.Get sampleAuthority false r.2 (str "/tmp/a.hms")))
      = Except.ok (some (newDocument (str "file:///tmp/a.hms") (str "/tmp/a.hms") (str "x")),
                   none) := by
  decide

/-- C10, amended: whenever `normalizePath` succeeds on `u` with the path `p`,
the path is empty or starts with `/`, `normalizePath` fails on `p`, and a
document opened under `u` is found by `Get` under `u` and not under `p`. -/
theorem normalizePath_of_path_fails (validAuthority : GoString → Bool) (windows : Bool)
    (u p : GoString) (h : normalizePath validAuthority windows u = Except.ok p) :
    rooted p ∧
    (∃ e : GoError, normalizePath validAuthority windows p = Except.error e) ∧
    (∀ (s : Lsp) (text : GoString),
      Lsp.DidOpen validAuthority windows s u text
        = Except.ok (newDocument u p text, { documents := (p, newDocument u p text) :: s.documents })
      ∧ Lsp.Get validAuthority windows { documents := (p, newDocument u p text) :: s.documents } u
        = some (newDocument u p text)
      ∧ Lsp.Get validAuthority windows { documents := (p, newDocument u p text) :: s.documents } p
        = none) := by
  have hr : rooted p := uriToPath_rooted validAuthority windows u p
    (normalizePath_of_ok validAuthority windows u p h)
  obtain ⟨e, he⟩ := normalizePath_of_rooted validAuthority windows p hr
  refine ⟨hr, ⟨e, he⟩, ?_⟩
  intro s text
  refine ⟨?_, ?_, ?_⟩
  · unfold Lsp.DidOpen
    rw [h]
  · unfold Lsp.Get
    rw [h]
    simp [Lsp.lookup]
  · unfold Lsp.Get
    rw [he]

/-- C10, at the URI "file:///tmp/a.hms": its path "/tmp/a.hms" is rejected by
`normalizePath`. -/
theorem normalizePath_of_path_fails_witness :
    ∃ e : GoError, normalizePath sampleAuthority false (str "/tmp/a.hms") = Except.error e :=
  (normalizePath_of_path_fails sampleAuthority false (str "file:///tmp/a.hms")
    (str "/tmp/a.hms") (by decide)).2.1

end HomescriptLS
